import Mathlib

/-!
Shallow embedding of the `audio-analyser` stream node (src/index.js).

Samples are modelled as exact rationals (`ℚ`).  A JavaScript array cell that
may hold `undefined` (an out-of-range read, which a `Float32Array` write turns
into `NaN`) is modelled by `JSNum`.  The external collaborators — the PCM
decoder (`pcm.getChannelData` / `pcm.convertSample`) and the forward FFT
(`ndarray-fft`) — are parameters of the capture step, matching the spec's
treatment of them as black-box boundary interfaces.
-/

namespace AudioAnalyser

/-- A JavaScript numeric cell: either an actual number (modelled as `ℚ`) or
the `undefined`/`NaN` value produced by an out-of-range array read. -/
inductive JSNum where
  | num (q : ℚ)
  | undefined
deriving DecidableEq, Repr

/-- JS `l.slice(-n)`: the last `n` elements, except that `slice(-0)` is
`slice(0)`, i.e. the whole array. -/
def jsSliceLast (l : List ℚ) (n : ℕ) : List ℚ :=
  if n = 0 then l else l.drop (l.length - n)

/-- Reading `l[i]` with a natural index in JavaScript: `undefined` when out of
range. -/
def jsIndex (l : List ℚ) (i : ℕ) : JSNum :=
  if i < l.length then .num (l.getD i 0) else .undefined

/-- Reading `l[i]` with a possibly negative index in JavaScript: `undefined`
when out of range (negative indices are not wrapped). -/
def jsIndexZ (l : List ℚ) (i : ℤ) : JSNum :=
  if 0 ≤ i ∧ i < l.length then .num (l.getD i.toNat 0) else .undefined

/-- JS `v || d` for an optional numeric argument: an absent argument and the
falsy value `0` both fall back to `d`. -/
def jsOr (v : Option ℕ) (d : ℕ) : ℕ :=
  match v with
  | none => d
  | some 0 => d
  | some n => n

/-- Applying the byte-conversion collaborator to a JS cell: converting
`undefined` keeps a non-number (`NaN`), modelled as `undefined`. -/
def jsConv (f : ℚ → ℚ) : JSNum → JSNum
  | .num q => .num (f q)
  | .undefined => .undefined

/-- A JavaScript number as it flows through the throttle arithmetic: a
finite value (exact rational), a signed infinity, or `NaN`. -/
inductive JSVal where
  | num (q : ℚ)
  | posInf
  | negInf
  | nan
deriving DecidableEq, Repr

/-- JS truncation toward zero, the rounding the `%` operator uses. -/
def jsTrunc (x : ℚ) : ℤ :=
  if 0 ≤ x then ⌊x⌋ else ⌈x⌉

/-- JS `v + n` for a natural count of new samples: `NaN` propagates. -/
def jsAddNat (v : JSVal) (n : ℕ) : JSVal :=
  match v with
  | .num q => .num (q + n)
  | x => x

/-- JS division of a running value by a finite rational: dividing a nonzero
finite value by zero gives a signed infinity, `0 / 0` is `NaN`, and `NaN`
propagates. -/
def jsDivVQ (v : JSVal) (r : ℚ) : JSVal :=
  match v with
  | .nan => .nan
  | .posInf => if r < 0 then .negInf else .posInf
  | .negInf => if r < 0 then .posInf else .negInf
  | .num q =>
    if r = 0 then
      if 0 < q then .posInf else if q < 0 then .negInf else .nan
    else .num (q / r)

/-- JS division of two finite rationals, with the `x / 0` special values. -/
def jsDivQQ (p r : ℚ) : JSVal :=
  if r = 0 then
    if 0 < p then .posInf else if p < 0 then .negInf else .nan
  else .num (p / r)

/-- JS `Math.floor` on a possibly non-finite value. -/
def jsFloorV : JSVal → JSVal
  | .num q => .num (⌊q⌋ : ℤ)
  | x => x

/-- JS remainder `v % m`: `NaN` for a `NaN` or infinite dividend or a zero
divisor; a finite dividend is returned unchanged by an infinite divisor;
otherwise `q - m * trunc(q / m)` (the sign follows the dividend). -/
def jsModV (v m : JSVal) : JSVal :=
  match v, m with
  | .num q, .num d => if d = 0 then .nan else .num (q - d * jsTrunc (q / d))
  | .num q, .posInf => .num q
  | .num q, .negInf => .num q
  | _, _ => .nan

/-- JS `>` comparison: false whenever `NaN` is involved. -/
def jsGt : JSVal → JSVal → Bool
  | .nan, _ => false
  | _, .nan => false
  | .posInf, .posInf => false
  | .posInf, _ => true
  | .negInf, _ => false
  | .num _, .posInf => false
  | .num _, .negInf => true
  | .num p, .num q => decide (q < p)

/-- The PCM format fields the decoder collaborator reads from the analyser
(inherited from `pcm.defaultFormat` and overridable via options). -/
structure Format where
  sampleRate : ℚ
  channels : ℕ
  bitDepth : ℕ
  signed : Bool
  float : Bool
  interleaved : Bool
deriving DecidableEq, Repr

/-- The analyser instance state: configuration fields (prototype defaults,
overridden by `extend(self, options)`), the time-data buffer `_data`, the
frequency data `_fdata`, and the two counters.  `extraProps` holds the option
keys outside the recognized configuration set exactly as `extend` assigns
them onto the instance: they are own properties, and a member lookup on the
instance (a method call, or `_write` reading `self._readableState`) consults
them first, shadowing the prototype member.  `pipesCount` models the pipe
count of the stream state object installed by `Transform.call`;
`_timeoutCount` is a JS number (it can become `NaN` through `%= 0`). -/
structure Analyser where
  minDecibels : ℚ
  maxDecibels : ℚ
  fftSize : ℕ
  smoothingTimeConstant : ℚ
  frequencyBinCount : ℕ
  throttle : ℚ
  bufferSize : ℕ
  channel : ℕ
  sampleRate : ℚ
  channels : ℕ
  bitDepth : ℕ
  signed : Bool
  float : Bool
  interleaved : Bool
  extraProps : List (String × ℚ)
  pipesCount : ℕ
  _data : List ℚ
  _fdata : List ℚ
  _timeoutCount : JSVal
  _fftCount : ℕ
deriving DecidableEq, Repr

/-- The construction options record.  A `none` field is an absent key;
`extend` assigns every present key, falsy values included.  `extra` carries
the keys outside the recognized configuration set. -/
structure Options where
  minDecibels : Option ℚ := none
  maxDecibels : Option ℚ := none
  fftSize : Option ℕ := none
  smoothingTimeConstant : Option ℚ := none
  frequencyBinCount : Option ℕ := none
  throttle : Option ℚ := none
  bufferSize : Option ℕ := none
  channel : Option ℕ := none
  sampleRate : Option ℚ := none
  channels : Option ℕ := none
  bitDepth : Option ℕ := none
  signed : Option Bool := none
  float : Option Bool := none
  interleaved : Option Bool := none
  extra : List (String × ℚ) := []
deriving Repr

/-- The `Analyser(options)` constructor: prototype defaults
(`minDecibels = -90`, `maxDecibels = -30`, `fftSize = 1024`,
`smoothingTimeConstant = 0.2`, `frequencyBinCount = 1024/2`, `throttle = 50`,
`bufferSize = 44100`, `channel = 0`, plus `pcm.defaultFormat`), overridden by
the options keys, then `_data = []`, `_fdata = new Float32Array(fftSize)`
(zero-filled) and both counters set to `0`. -/
def mkAnalyser (o : Options) : Analyser :=
  { minDecibels := o.minDecibels.getD (-90)
    maxDecibels := o.maxDecibels.getD (-30)
    fftSize := o.fftSize.getD 1024
    smoothingTimeConstant := o.smoothingTimeConstant.getD (1/5)
    frequencyBinCount := o.frequencyBinCount.getD (1024 / 2)
    throttle := o.throttle.getD 50
    bufferSize := o.bufferSize.getD 44100
    channel := o.channel.getD 0
    sampleRate := o.sampleRate.getD 44100
    channels := o.channels.getD 2
    bitDepth := o.bitDepth.getD 16
    signed := o.signed.getD true
    float := o.float.getD false
    interleaved := o.interleaved.getD true
    extraProps := o.extra
    pipesCount := 0
    _data := []
    _fdata := List.replicate (o.fftSize.getD 1024) 0
    _timeoutCount := JSVal.num 0
    _fftCount := 0 }

/-- The format record the PCM collaborator reads off the instance. -/
def Analyser.toFormat (a : Analyser) : Format :=
  { sampleRate := a.sampleRate
    channels := a.channels
    bitDepth := a.bitDepth
    signed := a.signed
    float := a.float
    interleaved := a.interleaved }

/-- JS own-property lookup: whether `extend` assigned an own property with
this name onto the instance (own properties shadow the prototype). -/
def hasOwnProp (a : Analyser) (name : String) : Bool :=
  a.extraProps.any (fun kv => kv.1 == name)

/-- JS `!self._readableState.pipesCount` (the `_write` branch condition): if
an option overwrote `_readableState` with a plain value, `.pipesCount` reads
`undefined`, which is falsy; otherwise it is the stream state's pipe
count. -/
def pipesCountFalsy (a : Analyser) : Bool :=
  hasOwnProp a "_readableState" || a.pipesCount == 0

/-- Result of one `_capture` call: the updated instance, whether the FFT
branch ran, and whether the completion callback was deferred with
`setTimeout(cb)` (`deferred = false` means `cb()` ran synchronously). -/
structure CaptureResult where
  state : Analyser
  didTransform : Bool
  deferred : Bool
deriving Repr

section Collaborators

variable {Chunk : Type}
variable (getChannelData : Chunk → ℕ → Format → List ℚ)
variable (convertToFloat : ℚ → Format → ℚ)
variable (forwardTransform : List ℚ → List ℚ → List ℚ × List ℚ)

/-- Source expression `pcm.getChannelData(chunk, self.channel, self).map(s =>
pcm.convertSample(s, self, {float: true}))`: the decoded, float-normalized
channel data of one chunk. -/
def decodeChunk (a : Analyser) (chunk : Chunk) : List ℚ :=
  (getChannelData chunk a.channel a.toFormat).map (fun s => convertToFloat s a.toFormat)

/-- Source method `Analyser.prototype._capture` (src/index.js lines 102–142): decode the
chunk, append to `_data` keeping the last `bufferSize` samples, bump both
counters, run the FFT branch when `_fftCount >= fftSize` (reset `_fftCount`
to 0, transform the last `fftSize` samples with a zero imaginary part in
place, fold the real output into `_fdata` with smoothing factor `k`), then
either defer the callback (`_timeoutCount %= floor(sampleRate/throttle)`,
`setTimeout(cb)`) or call it synchronously. -/
def _capture (a : Analyser) (chunk : Chunk) : CaptureResult :=
  let channelData := decodeChunk getChannelData convertToFloat a chunk
  let data1 := jsSliceLast (a._data ++ channelData) a.bufferSize
  let tc1 := jsAddNat a._timeoutCount channelData.length
  let fc1 := a._fftCount + channelData.length
  let didT := decide (a.fftSize ≤ fc1)
  let fdata1 :=
    if a.fftSize ≤ fc1 then
      let input := jsSliceLast data1 a.fftSize
      let outRe := (forwardTransform input (List.replicate a.fftSize 0)).1
      let k := a.smoothingTimeConstant
      a._fdata.mapIdx (fun i v =>
        if i < a.fftSize then k * v + (1 - k) * outRe.getD i 0 / (a.fftSize : ℚ) else v)
    else a._fdata
  let fc2 := if a.fftSize ≤ fc1 then 0 else fc1
  let deferred := decide (a.throttle ≠ 0) &&
    jsGt (jsDivVQ tc1 a.sampleRate) (jsDivQQ a.throttle 1000)
  let tc2 := if deferred then jsModV tc1 (jsFloorV (jsDivQQ a.sampleRate a.throttle)) else tc1
  { state := { a with
                _data := data1
                _fdata := fdata1
                _timeoutCount := tc2
                _fftCount := fc2 }
    didTransform := didT
    deferred := deferred }

/-- A sequence of `_capture` calls; also counts how many of them took the FFT
branch. -/
def captureMany (a : Analyser) : List Chunk → Analyser × ℕ
  | [] => (a, 0)
  | c :: cs =>
    let r := _capture getChannelData convertToFloat forwardTransform a c
    let t := captureMany r.state cs
    (t.1, (if r.didTransform then 1 else 0) + t.2)

/-- Source method `Analyser.prototype._transform`: push the chunk downstream
unchanged, then capture it. -/
def _transform (a : Analyser) (chunk : Chunk) : CaptureResult × List Chunk :=
  (_capture getChannelData convertToFloat forwardTransform a chunk, [chunk])

/-- Result of `_write`: either the no-downstream-consumer path (capture plus
an emitted `data` event), or delegation to `Transform.prototype._write`
(external stream plumbing, out of scope). -/
structure WriteResult (Chunk : Type) where
  state : Analyser
  emitted : List Chunk
  delegated : Bool
deriving Repr

/-- Source method `Analyser.prototype._write`: when
`self._readableState.pipesCount` is falsy (pipe count zero, or the state
shadowed by an option property), capture the chunk and emit a `data` event
carrying the chunk itself; otherwise delegate to the inherited stream
`_write`. -/
def _write (a : Analyser) (chunk : Chunk) : WriteResult Chunk :=
  if pipesCountFalsy a then
    let r := _capture getChannelData convertToFloat forwardTransform a chunk
    { state := r.state, emitted := [chunk], delegated := false }
  else
    { state := a, emitted := [], delegated := true }

end Collaborators

section Accessors

variable (convertToByte : ℚ → ℚ)

/-- Source method `getFloatFrequencyData(arr)`: no-op on an absent argument, otherwise
overwrite `arr[i] = _fdata[i]` for `i < min(frequencyBinCount, arr.length)`,
leaving the rest of `arr` untouched. -/
def getFloatFrequencyData (a : Analyser) : Option (List JSNum) → Option (List JSNum)
  | none => none
  | some arr =>
    let l := min a.frequencyBinCount arr.length
    some ((List.range l).map (fun i => jsIndex a._fdata i) ++ arr.drop l)

/-- Source method `getByteFrequencyData(arr)`: like `getFloatFrequencyData` with each value
passed through `pcm.convertSample(·, {float:true}, {signed:false, bitDepth:8})`. -/
def getByteFrequencyData (a : Analyser) : Option (List JSNum) → Option (List JSNum)
  | none => none
  | some arr =>
    let l := min a.frequencyBinCount arr.length
    some ((List.range l).map (fun i => jsConv convertToByte (jsIndex a._fdata i)) ++ arr.drop l)

/-- Source method `getFloatTimeDomainData(arr)`: no-op on an absent argument, otherwise
with `size = min(arr.length, fftSize)` run
`for (c = 0, i = _data.length - fftSize; c < size; i++, c++) arr[c] = _data[i]`
(a negative `i` reads `undefined`), leaving the rest of `arr` untouched. -/
def getFloatTimeDomainData (a : Analyser) : Option (List JSNum) → Option (List JSNum)
  | none => none
  | some arr =>
    let size := min arr.length a.fftSize
    some ((List.range size).map
        (fun (c : ℕ) => jsIndexZ a._data ((a._data.length : ℤ) - (a.fftSize : ℤ) + (c : ℕ)))
      ++ arr.drop size)

/-- Source method `getByteTimeDomainData(arr)`: like `getFloatTimeDomainData` with each
sample passed through the 8-bit unsigned conversion. -/
def getByteTimeDomainData (a : Analyser) : Option (List JSNum) → Option (List JSNum)
  | none => none
  | some arr =>
    let size := min arr.length a.fftSize
    some ((List.range size).map
        (fun (c : ℕ) => jsConv convertToByte
          (jsIndexZ a._data ((a._data.length : ℤ) - (a.fftSize : ℤ) + (c : ℕ))))
      ++ arr.drop size)

/-- Source method `getFrequencyData(size)`: `size = size || fftSize`, clamp to
`_fdata.length`, return a fresh array of the first `size` values. -/
def getFrequencyData (a : Analyser) (size : Option ℕ) : List ℚ :=
  let s := jsOr size a.fftSize
  let s := min s a._fdata.length
  a._fdata.take s

/-- Source method `getTimeData(size)`: `size = size || fftSize`, clamp to `_data.length`,
return `_data.slice(-size)`. -/
def getTimeData (a : Analyser) (size : Option ℕ) : List ℚ :=
  let s := jsOr size a.fftSize
  let s := min s a._data.length
  jsSliceLast a._data s

end Accessors

/-- Gaussian-rational multiplication, used to express fourth roots of unity
exactly. -/
def gMul (x y : ℚ × ℚ) : ℚ × ℚ :=
  (x.1 * y.1 - x.2 * y.2, x.1 * y.2 + x.2 * y.1)

/-- Powers of the principal size-4 twiddle factor
`e^(-2*pi*I/4) = -I`, tabulated exactly as Gaussian rationals. -/
def pow4 (k : ℕ) : ℚ × ℚ :=
  match k % 4 with
  | 0 => (1, 0)
  | 1 => (0, -1)
  | 2 => (-1, 0)
  | _ => (0, 1)

/-- Modelled from the spec: the forward-transform collaborator
(`fft(1, re, im)` from `ndarray-fft`, §6 transform boundary), instantiated at
size 4: `X[k] = sum_n x[n] * (-I)^(k*n)` in exact Gaussian-rational
arithmetic. -/
def dft4 (re im : List ℚ) : List ℚ × List ℚ :=
  let n := re.length
  let out := (List.range n).map (fun k =>
    (List.range n).foldl
      (fun acc j => (acc.1 + (gMul (re.getD j 0, im.getD j 0) (pow4 (k * j))).1,
                     acc.2 + (gMul (re.getD j 0, im.getD j 0) (pow4 (k * j))).2))
      (0, 0))
  (out.map Prod.fst, out.map Prod.snd)

/-- A concrete chunk type for witnesses: a chunk carrying already-decoded
mono float samples. -/
abbrev QChunk := List ℚ

/-- Witness instantiation of `pcm.getChannelData`: the chunk is the channel
data itself (mono float format). -/
def qGetChannelData : QChunk → ℕ → Format → List ℚ := fun c _ _ => c

/-- Witness instantiation of the float-normalizing `pcm.convertSample`:
samples are already normalized floats. -/
def qConvertToFloat : ℚ → Format → ℚ := fun s _ => s

/-- Witness instantiation of the byte-quantizing `pcm.convertSample`. -/
def qConvertToByte : ℚ → ℚ := fun q => ((⌊(q + 1) * 127⌋ : ℤ) : ℚ)

/-- Witness instantiation of the transform collaborator: the identity
in-place transform (returns its inputs, so it satisfies the length
contract of the boundary). -/
def idTransform : List ℚ → List ℚ → List ℚ × List ℚ := fun re im => (re, im)

/-!
## Helper lemmas
-/

theorem take_append_take (n : ℕ) (A B : List ℚ) :
    (A ++ B.take n).take n = (A ++ B).take n := by
  rw [List.take_append_eq_append_take, List.take_append_eq_append_take, List.take_take,
    Nat.min_eq_left (Nat.sub_le n A.length)]

theorem jsSliceLast_eq_reverse_take (l : List ℚ) (b : ℕ) (hb : b ≠ 0) :
    jsSliceLast l b = (l.reverse.take b).reverse := by
  simp only [jsSliceLast, if_neg hb]
  have h := List.reverse_take (n := b) (l := l.reverse)
  simpa using h.symm

theorem length_jsSliceLast (l : List ℚ) (b : ℕ) (hb : b ≠ 0) :
    (jsSliceLast l b).length = min l.length b := by
  simp only [jsSliceLast, if_neg hb, List.length_drop]
  omega

theorem jsSliceLast_append (b : ℕ) (hb : b ≠ 0) (xs ys : List ℚ) :
    jsSliceLast (jsSliceLast xs b ++ ys) b = jsSliceLast (xs ++ ys) b := by
  rw [jsSliceLast_eq_reverse_take _ _ hb, jsSliceLast_eq_reverse_take _ _ hb,
    jsSliceLast_eq_reverse_take _ _ hb]
  congr 1
  rw [List.reverse_append, List.reverse_reverse, take_append_take, List.reverse_append]

theorem jsSliceLast_of_le (l : List ℚ) (b : ℕ) (h : l.length ≤ b) :
    jsSliceLast l b = l := by
  unfold jsSliceLast
  rcases Nat.eq_zero_or_pos b with hb | hb
  · simp [hb]
  · rw [if_neg hb.ne', Nat.sub_eq_zero_of_le h, List.drop_zero]

section CaptureLemmas

variable {Chunk : Type}
variable (getChannelData : Chunk → ℕ → Format → List ℚ)
variable (convertToFloat : ℚ → Format → ℚ)
variable (forwardTransform : List ℚ → List ℚ → List ℚ × List ℚ)

theorem captureMany_data (cs : List Chunk) (a : Analyser)
    (hlen : a._data.length ≤ a.bufferSize) (hb : a.bufferSize ≠ 0) :
    ((captureMany getChannelData convertToFloat forwardTransform a cs).1)._data
      = jsSliceLast
          (a._data ++ (cs.map (decodeChunk getChannelData convertToFloat a)).flatten)
          a.bufferSize ∧
    ((captureMany getChannelData convertToFloat forwardTransform a cs).1).bufferSize
      = a.bufferSize := by
  induction cs generalizing a with
  | nil =>
    refine ⟨?_, rfl⟩
    simp only [captureMany, List.map_nil, List.flatten_nil, List.append_nil]
    exact (jsSliceLast_of_le _ _ hlen).symm
  | cons c cs ih =>
    have hstate :
        (_capture getChannelData convertToFloat forwardTransform a c).state._data
          = jsSliceLast (a._data ++ decodeChunk getChannelData convertToFloat a c)
              a.bufferSize := rfl
    have hbuf :
        (_capture getChannelData convertToFloat forwardTransform a c).state.bufferSize
          = a.bufferSize := rfl
    have hdec :
        decodeChunk getChannelData convertToFloat
            (_capture getChannelData convertToFloat forwardTransform a c).state
          = decodeChunk getChannelData convertToFloat a := rfl
    have hlen' :
        (_capture getChannelData convertToFloat forwardTransform a c).state._data.length
          ≤ (_capture getChannelData convertToFloat forwardTransform a c).state.bufferSize := by
      rw [hstate, hbuf, length_jsSliceLast _ _ hb]
      exact Nat.min_le_right _ _
    obtain ⟨ih1, ih2⟩ := ih (_capture getChannelData convertToFloat forwardTransform a c).state
      hlen' (by rw [hbuf]; exact hb)
    constructor
    · show ((captureMany getChannelData convertToFloat forwardTransform
          (_capture getChannelData convertToFloat forwardTransform a c).state cs).1)._data = _
      rw [ih1, hdec, hstate, hbuf, jsSliceLast_append _ hb, List.append_assoc,
        List.map_cons, List.flatten_cons]
    · show ((captureMany getChannelData convertToFloat forwardTransform
          (_capture getChannelData convertToFloat forwardTransform a c).state cs).1).bufferSize = _
      rw [ih2, hbuf]

end CaptureLemmas

/-!
## Claim C2
-/

/-- C2 counterexample: the claim fails as stated when the analyser is
constructed with `bufferSize = 0`.  JavaScript's `slice(-0)` keeps the whole
array, so after capturing one sample the Time Buffer has length 1, which
exceeds `bufferSize = 0`. -/
theorem c2_time_buffer_window_counterexample :
    (((captureMany qGetChannelData qConvertToFloat idTransform
        (mkAnalyser { fftSize := some 2, bufferSize := some 0 }) [[5]]).1)._data).length = 1 ∧
    ¬ (((captureMany qGetChannelData qConvertToFloat idTransform
        (mkAnalyser { fftSize := some 2, bufferSize := some 0 }) [[5]]).1)._data).length
      ≤ (mkAnalyser { fftSize := some 2, bufferSize := some 0 }).bufferSize := by
  constructor
  · rfl
  · decide

/-- C2 (amended): provided `bufferSize` is positive, for every sequence of
capture calls starting from a fresh analyser, after each capture the Time
Buffer's length never exceeds `bufferSize` and its contents equal the most
recently decoded `min(total decoded, bufferSize)` samples in arrival order
(oldest evicted first).  With `bufferSize = 0` the `slice(-0)` degenerate
case keeps the whole buffer, which grows without bound. -/
theorem c2_time_buffer_bounded_window {Chunk : Type}
    (getChannelData : Chunk → ℕ → Format → List ℚ)
    (convertToFloat : ℚ → Format → ℚ)
    (forwardTransform : List ℚ → List ℚ → List ℚ × List ℚ)
    (cs : List Chunk) (a : Analyser)
    (hfresh : a._data = []) (hb : 0 < a.bufferSize) :
    (((captureMany getChannelData convertToFloat forwardTransform a cs).1)._data).length
      ≤ a.bufferSize ∧
    ((captureMany getChannelData convertToFloat forwardTransform a cs).1)._data
      = ((cs.map (decodeChunk getChannelData convertToFloat a)).flatten).drop
          (((cs.map (decodeChunk getChannelData convertToFloat a)).flatten).length
            - a.bufferSize) ∧
    (((captureMany getChannelData convertToFloat forwardTransform a cs).1)._data).length
      = min ((cs.map (decodeChunk getChannelData convertToFloat a)).flatten).length
          a.bufferSize := by
  obtain ⟨h1, _⟩ := captureMany_data getChannelData convertToFloat forwardTransform cs a
    (by rw [hfresh]; exact Nat.zero_le _) hb.ne'
  rw [hfresh, List.nil_append] at h1
  rw [h1]
  refine ⟨?_, ?_, ?_⟩
  · rw [length_jsSliceLast _ _ hb.ne']
    exact Nat.min_le_right _ _
  · simp only [jsSliceLast, if_neg hb.ne']
  · exact length_jsSliceLast _ _ hb.ne'

/-- C2 witness: a concrete run of the amended theorem with `bufferSize = 2`,
chunks decoding to `[1,2]` and `[3]`: the buffer ends as `[2,3]`, length
`2 = min 3 2`. -/
theorem c2_time_buffer_bounded_window_witness :
    (mkAnalyser { fftSize := some 8, bufferSize := some 2 })._data = [] ∧
    0 < (mkAnalyser { fftSize := some 8, bufferSize := some 2 }).bufferSize ∧
    ((captureMany qGetChannelData qConvertToFloat idTransform
        (mkAnalyser { fftSize := some 8, bufferSize := some 2 }) [[1, 2], [3]]).1)._data
      = [2, 3] := by
  refine ⟨rfl, by decide, ?_⟩
  have h := c2_time_buffer_bounded_window qGetChannelData qConvertToFloat idTransform
    [[1, 2], [3]] (mkAnalyser { fftSize := some 8, bufferSize := some 2 }) rfl (by decide)
  rw [h.2.1]
  rfl

theorem getD_mapIdx (l : List ℚ) (f : ℕ → ℚ → ℚ) (i : ℕ) (h : i < l.length) :
    (l.mapIdx f).getD i 0 = f i (l.getD i 0) := by
  rw [List.getD_eq_getElem _ _ (by simpa using h), List.getD_eq_getElem _ _ h]
  simp

/-!
## Claim C1
-/

/-- C1: during every capture call, after the decoded samples are appended to
the Time Buffer, a transform runs if and only if the samples-since-transform
counter (after adding the new samples) is at least `fftSize`; when it runs the
counter is reset to exactly 0 (a full reset, not a decrement), and for every
bin `i < fftSize` the stored spectrum becomes
`k * spectrum[i] + (1 - k) * Re(output[i]) / fftSize`, where `output` is the
in-place forward transform of the most recent `fftSize` buffered samples with
an all-zero imaginary input.  `hwin` states that a full window is buffered and
`hlen` is the transform collaborator's size contract. -/
theorem c1_fft_trigger_reset_smoothing {Chunk : Type}
    (getChannelData : Chunk → ℕ → Format → List ℚ)
    (convertToFloat : ℚ → Format → ℚ)
    (forwardTransform : List ℚ → List ℚ → List ℚ × List ℚ)
    (a : Analyser) (chunk : Chunk)
    (cd : List ℚ) (hcd : cd = decodeChunk getChannelData convertToFloat a chunk)
    (out : List ℚ)
    (hout : out = (forwardTransform
      (jsSliceLast (jsSliceLast (a._data ++ cd) a.bufferSize) a.fftSize)
      (List.replicate a.fftSize 0)).1)
    (hfd : a._fdata.length = a.fftSize)
    (hwin : a.fftSize ≤ (jsSliceLast (a._data ++ cd) a.bufferSize).length)
    (hlen : out.length = a.fftSize) :
    ((_capture getChannelData convertToFloat forwardTransform a chunk).didTransform = true
      ↔ a.fftSize ≤ a._fftCount + cd.length) ∧
    (a.fftSize ≤ a._fftCount + cd.length →
      (_capture getChannelData convertToFloat forwardTransform a chunk).state._fftCount = 0 ∧
      ∀ i, i < a.fftSize →
        (_capture getChannelData convertToFloat forwardTransform a chunk).state._fdata.getD i 0
          = a.smoothingTimeConstant * a._fdata.getD i 0
            + (1 - a.smoothingTimeConstant) * out.getD i 0 / (a.fftSize : ℚ)) := by
  subst hcd
  subst hout
  refine ⟨⟨fun h => of_decide_eq_true h, fun h => decide_eq_true h⟩, fun h => ⟨?_, ?_⟩⟩
  · simp only [_capture]
    rw [if_pos h]
  · intro i hi
    simp only [_capture]
    rw [if_pos h, getD_mapIdx _ _ i (hfd.symm ▸ hi), if_pos hi]

/-- C1 witness: `fftSize = 2`, `k = 1/2`, fresh analyser, one capture of
`[1, 2]` with the identity transform: the trigger fires, the counter resets,
and bin 0 becomes `1/2 * 0 + 1/2 * 1 / 2 = 1/4`. -/
theorem c1_fft_trigger_reset_smoothing_witness :
    ((_capture qGetChannelData qConvertToFloat idTransform
        (mkAnalyser { fftSize := some 2, smoothingTimeConstant := some (1/2) })
        ([1, 2] : QChunk)).didTransform = true
      ↔ (mkAnalyser { fftSize := some 2, smoothingTimeConstant := some (1/2) }).fftSize
          ≤ (mkAnalyser { fftSize := some 2, smoothingTimeConstant := some (1/2) })._fftCount
            + ([1, 2] : List ℚ).length) ∧
    ((_capture qGetChannelData qConvertToFloat idTransform
        (mkAnalyser { fftSize := some 2, smoothingTimeConstant := some (1/2) })
        ([1, 2] : QChunk)).state._fftCount = 0 ∧
      (_capture qGetChannelData qConvertToFloat idTransform
        (mkAnalyser { fftSize := some 2, smoothingTimeConstant := some (1/2) })
        ([1, 2] : QChunk)).state._fdata.getD 0 0 = 1/4) := by
  have h := c1_fft_trigger_reset_smoothing qGetChannelData qConvertToFloat idTransform
    (mkAnalyser { fftSize := some 2, smoothingTimeConstant := some (1/2) })
    ([1, 2] : QChunk) [1, 2] rfl [1, 2] rfl rfl (by decide) rfl
  obtain ⟨h1, h2⟩ := h
  obtain ⟨hreset, hbin⟩ := h2 (by decide)
  refine ⟨h1, hreset, ?_⟩
  rw [hbin 0 (by decide)]
  norm_num [mkAnalyser, List.replicate]

/-!
## Claim C4
-/

/-- C4 counterexample: constructing with `fftSize = 256` and no explicit
`frequencyBinCount` option leaves `frequencyBinCount = 512` (the prototype
constant `1024/2`), not `fftSize / 2 = 128`. -/
theorem c4_frequency_bin_count_counterexample :
    (mkAnalyser { fftSize := some 256 }).frequencyBinCount = 512 ∧
    (mkAnalyser { fftSize := some 256 }).frequencyBinCount
      ≠ (mkAnalyser { fftSize := some 256 }).fftSize / 2 := by
  constructor
  · rfl
  · decide

/-- C4 (amended): for every analyser constructed without an explicit
`frequencyBinCount` option, `frequencyBinCount` equals the prototype constant
`1024 / 2 = 512` — half of the *default* `fftSize` — regardless of the
configured `fftSize`. -/
theorem c4_frequency_bin_count_default (o : Options)
    (h : o.frequencyBinCount = none) :
    (mkAnalyser o).frequencyBinCount = 512 := by
  simp [mkAnalyser, h]

/-- C4 witness: the amended default applied to the `fftSize = 256`
construction. -/
theorem c4_frequency_bin_count_default_witness :
    ({ fftSize := some 256 } : Options).frequencyBinCount = none ∧
    (mkAnalyser { fftSize := some 256 }).frequencyBinCount = 512 :=
  ⟨rfl, c4_frequency_bin_count_default { fftSize := some 256 } rfl⟩

/-!
## Claim C5
-/

theorem getD_drop {α : Type} (l : List α) (d : α) (i j : ℕ) (h : i + j < l.length) :
    (l.drop i).getD j d = l.getD (i + j) d := by
  rw [List.getD_eq_getElem _ _ (by simp; omega), List.getD_eq_getElem _ _ h]
  exact List.getElem_drop ..

theorem map_range_getD (w : List ℚ) (s : ℕ) (hs : s ≤ w.length) (f : ℚ → JSNum) :
    (List.range s).map (fun c => f (w.getD c 0)) = (w.take s).map f := by
  induction s with
  | zero => simp
  | succ s ih =>
    have hlt : s < w.length := hs
    rw [List.range_succ, List.map_append, ih (Nat.le_of_succ_le hs), List.take_succ,
      List.map_append, List.getElem?_eq_getElem hlt]
    simp only [List.map_cons, List.map_nil, Option.toList_some,
      List.getD_eq_getElem _ _ hlt]

theorem jsIndexZ_window (data : List ℚ) (fft c : ℕ)
    (hlen : fft ≤ data.length) (hc : c < fft) :
    jsIndexZ data ((data.length : ℤ) - (fft : ℤ) + (c : ℤ))
      = JSNum.num ((data.drop (data.length - fft)).getD c 0) := by
  have hcond : (0 : ℤ) ≤ (data.length : ℤ) - (fft : ℤ) + (c : ℤ) ∧
      (data.length : ℤ) - (fft : ℤ) + (c : ℤ) < (data.length : ℤ) := by
    constructor <;> omega
  rw [jsIndexZ, if_pos hcond, getD_drop _ _ _ _ (by omega)]
  have hix : (((data.length : ℤ) - (fft : ℤ) + (c : ℤ)).toNat)
      = data.length - fft + c := by omega
  rw [hix]

/-- C3 counterexample: with Time Buffer `[1,2,3,4]`, `fftSize = 4` and a
2-element destination, `getFloatTimeDomainData` writes `[1, 2]` — the oldest
two samples of the 4-sample window — not the most recent two samples `[3, 4]`
with the newest at the highest filled index, as the claim states. -/
theorem c3_time_domain_counterexample :
    getFloatTimeDomainData { mkAnalyser { fftSize := some 4 } with _data := [1, 2, 3, 4] }
        (some [JSNum.num 0, JSNum.num 0])
      = some [JSNum.num 1, JSNum.num 2] ∧
    (some [JSNum.num 1, JSNum.num 2] : Option (List JSNum))
      ≠ some [JSNum.num 3, JSNum.num 4] := by
  constructor
  · rfl
  · decide

/-- C3 (amended): when the Time Buffer holds at least `fftSize` samples,
`getFloatTimeDomainData(dest)` fills `dest[0 .. min(dest.length, fftSize))`
with the *oldest-first prefix* of the `fftSize`-sample window that ends at the
buffer's newest sample — so the newest sample lands at index `fftSize - 1`
only when `dest.length ≥ fftSize`; shorter destinations receive the oldest
part of the window, not the most recent samples.  Entries past the filled
range keep their previous values, and `getByteTimeDomainData` is the same
with the byte conversion applied per sample. -/
theorem c3_time_domain_window_prefix (convertToByte : ℚ → ℚ)
    (a : Analyser) (arr : List JSNum)
    (hlen : a.fftSize ≤ a._data.length) :
    getFloatTimeDomainData a (some arr)
      = some ((((a._data.drop (a._data.length - a.fftSize)).take
            (min arr.length a.fftSize)).map JSNum.num)
          ++ arr.drop (min arr.length a.fftSize)) ∧
    getByteTimeDomainData convertToByte a (some arr)
      = some ((((a._data.drop (a._data.length - a.fftSize)).take
            (min arr.length a.fftSize)).map (fun q => JSNum.num (convertToByte q)))
          ++ arr.drop (min arr.length a.fftSize)) := by
  have hwlen : min arr.length a.fftSize ≤ (a._data.drop (a._data.length - a.fftSize)).length := by
    rw [List.length_drop]
    omega
  constructor
  · rw [getFloatTimeDomainData]
    have hmap : (List.range (min arr.length a.fftSize)).map
        (fun (c : ℕ) => jsIndexZ a._data ((a._data.length : ℤ) - (a.fftSize : ℤ) + (c : ℕ)))
        = (List.range (min arr.length a.fftSize)).map
          (fun c => JSNum.num ((a._data.drop (a._data.length - a.fftSize)).getD c 0)) := by
      refine List.map_congr_left fun c hc => ?_
      rw [List.mem_range] at hc
      exact jsIndexZ_window a._data a.fftSize c hlen (lt_of_lt_of_le hc (min_le_right _ _))
    rw [hmap, map_range_getD _ _ hwlen]
  · rw [getByteTimeDomainData]
    have hmap : (List.range (min arr.length a.fftSize)).map
        (fun (c : ℕ) => jsConv convertToByte
          (jsIndexZ a._data ((a._data.length : ℤ) - (a.fftSize : ℤ) + (c : ℕ))))
        = (List.range (min arr.length a.fftSize)).map
          (fun c => (fun q => JSNum.num (convertToByte q))
            ((a._data.drop (a._data.length - a.fftSize)).getD c 0)) := by
      refine List.map_congr_left fun c hc => ?_
      rw [List.mem_range] at hc
      rw [jsIndexZ_window a._data a.fftSize c hlen (lt_of_lt_of_le hc (min_le_right _ _))]
      rfl
    rw [hmap, map_range_getD _ _ hwlen (fun q => JSNum.num (convertToByte q))]

/-- C3 witness: the amended characterization at Time Buffer `[1,2,3,4]`,
`fftSize = 4`, destination length 2: the filled prefix is `[1, 2]`. -/
theorem c3_time_domain_window_prefix_witness :
    (({ mkAnalyser { fftSize := some 4 } with _data := [1, 2, 3, 4] } : Analyser).fftSize
      ≤ ({ mkAnalyser { fftSize := some 4 } with _data := [1, 2, 3, 4] } : Analyser)._data.length) ∧
    getFloatTimeDomainData { mkAnalyser { fftSize := some 4 } with _data := [1, 2, 3, 4] }
        (some [JSNum.num 9, JSNum.num 9])
      = some [JSNum.num 1, JSNum.num 2] := by
  have h := c3_time_domain_window_prefix qConvertToByte
    { mkAnalyser { fftSize := some 4 } with _data := [1, 2, 3, 4] }
    [JSNum.num 9, JSNum.num 9] (by decide)
  refine ⟨by decide, ?_⟩
  rw [h.1]
  rfl

/-!
## Claim C8
-/

/-- C8 counterexample: `size = 0` is falsy, so `size || fftSize` falls back
to `fftSize`: `getFrequencyData(0)` on an `fftSize = 4` analyser returns 4
values, not `min(0, spectrum.length) = 0` as the `size ?? fftSize` reading of
the claim demands. -/
theorem c8_get_data_size_counterexample :
    (getFrequencyData (mkAnalyser { fftSize := some 4 }) (some 0)).length = 4 ∧
    (getFrequencyData (mkAnalyser { fftSize := some 4 }) (some 0)).length
      ≠ min 0 ((mkAnalyser { fftSize := some 4 })._fdata.length) := by
  constructor
  · rfl
  · decide

/-- C8 (amended): the size argument goes through JavaScript `||`, so an
absent *or zero* size defaults to `fftSize`.  `getFrequencyData` returns a
fresh sequence of exactly `min(size || fftSize, spectrum.length)` spectrum
values taken from index 0, and `getTimeData` returns a fresh sequence of the
last `min(size || fftSize, buffer.length)` Time Buffer samples — stated for a
positive effective size (with `fftSize = 0` and an omitted size,
`slice(-0)` returns the whole buffer instead of nothing). -/
theorem c8_get_data_sizes (a : Analyser) (sz : Option ℕ)
    (hpos : 0 < jsOr sz a.fftSize) :
    getFrequencyData a sz = a._fdata.take (min (jsOr sz a.fftSize) a._fdata.length) ∧
    (getFrequencyData a sz).length = min (jsOr sz a.fftSize) a._fdata.length ∧
    getTimeData a sz
      = a._data.drop (a._data.length - min (jsOr sz a.fftSize) a._data.length) ∧
    (getTimeData a sz).length = min (jsOr sz a.fftSize) a._data.length := by
  have h1 : getFrequencyData a sz
      = a._fdata.take (min (jsOr sz a.fftSize) a._fdata.length) := rfl
  have h3 : getTimeData a sz
      = a._data.drop (a._data.length - min (jsOr sz a.fftSize) a._data.length) := by
    show jsSliceLast a._data (min (jsOr sz a.fftSize) a._data.length) = _
    by_cases h : min (jsOr sz a.fftSize) a._data.length = 0
    · have hlen0 : a._data.length = 0 := by omega
      have hnil : a._data = [] := List.eq_nil_of_length_eq_zero hlen0
      simp [jsSliceLast, hnil, h]
    · simp only [jsSliceLast, if_neg h]
  refine ⟨h1, ?_, h3, ?_⟩
  · rw [h1, List.length_take]
    omega
  · rw [h3, List.length_drop]
    omega

/-- C8 witness: `fftSize = 2`, buffer `[1,2,3]`, omitted size: the frequency
query returns both spectrum bins and the time query returns the last two
samples `[2, 3]`. -/
theorem c8_get_data_sizes_witness :
    0 < jsOr none ({ mkAnalyser { fftSize := some 2 } with
        _data := [1, 2, 3] } : Analyser).fftSize ∧
    (getFrequencyData { mkAnalyser { fftSize := some 2 } with _data := [1, 2, 3] } none).length
      = 2 ∧
    getTimeData { mkAnalyser { fftSize := some 2 } with _data := [1, 2, 3] } none = [2, 3] := by
  have h := c8_get_data_sizes
    { mkAnalyser { fftSize := some 2 } with _data := [1, 2, 3] } none (by decide)
  refine ⟨by decide, ?_, ?_⟩
  · rw [h.2.1]
    rfl
  · rw [h.2.2.1]
    rfl

/-!
## Claim C9
-/

/-- C9: `getFloatFrequencyData` and `getByteFrequencyData` write only
destination indices `0 .. min(frequencyBinCount, dest.length) - 1` — never
past `dest.length` and never more than `frequencyBinCount` entries (the
result keeps the destination's length and every entry at index
`≥ min(frequencyBinCount, dest.length)` unchanged) — and an absent `dest` is
returned unchanged (`none`). -/
theorem c9_frequency_data_write_bounds (convertToByte : ℚ → ℚ)
    (a : Analyser) (arr : List JSNum) :
    getFloatFrequencyData a none = none ∧
    getByteFrequencyData convertToByte a none = none ∧
    min a.frequencyBinCount arr.length ≤ a.frequencyBinCount ∧
    min a.frequencyBinCount arr.length ≤ arr.length ∧
    (∃ res, getFloatFrequencyData a (some arr) = some res ∧
      res.length = arr.length ∧
      ∀ j, min a.frequencyBinCount arr.length ≤ j →
        res.getD j .undefined = arr.getD j .undefined) ∧
    (∃ res, getByteFrequencyData convertToByte a (some arr) = some res ∧
      res.length = arr.length ∧
      ∀ j, min a.frequencyBinCount arr.length ≤ j →
        res.getD j .undefined = arr.getD j .undefined) := by
  have hshape : ∀ w : List JSNum, w.length = min a.frequencyBinCount arr.length →
      (w ++ arr.drop (min a.frequencyBinCount arr.length)).length = arr.length ∧
      ∀ j, min a.frequencyBinCount arr.length ≤ j →
        (w ++ arr.drop (min a.frequencyBinCount arr.length)).getD j .undefined
          = arr.getD j .undefined := by
    intro w hw
    constructor
    · rw [List.length_append, List.length_drop, hw]
      omega
    · intro j hj
      rw [List.getD_append_right _ _ _ _ (by omega)]
      by_cases hcase : j < arr.length
      · rw [getD_drop _ _ _ _ (by omega), hw]
        congr 1
        omega
      · rw [List.getD_eq_default _ _ (by simp only [List.length_drop]; omega),
          List.getD_eq_default _ _ (by omega)]
  refine ⟨rfl, rfl, Nat.min_le_left _ _, Nat.min_le_right _ _, ?_, ?_⟩
  · refine ⟨_, rfl, hshape _ ?_⟩
    simp
  · refine ⟨_, rfl, hshape _ ?_⟩
    simp

/-- C9 witness: `frequencyBinCount = 1`, destination `[7, 8]`: only index 0
is written; the entry at index 1 keeps its value `8`, and the absent-dest
call returns `none`. -/
theorem c9_frequency_data_write_bounds_witness :
    getFloatFrequencyData (mkAnalyser { frequencyBinCount := some 1 }) none = none ∧
    (∃ res, getFloatFrequencyData (mkAnalyser { frequencyBinCount := some 1 })
        (some [JSNum.num 7, JSNum.num 8]) = some res ∧
      res.length = 2 ∧ res.getD 1 .undefined = JSNum.num 8) := by
  obtain ⟨hn, -, -, -, ⟨res, hres, hlen, huntouched⟩, -⟩ :=
    c9_frequency_data_write_bounds qConvertToByte
      (mkAnalyser { frequencyBinCount := some 1 }) [JSNum.num 7, JSNum.num 8]
  refine ⟨hn, res, hres, hlen.trans rfl, ?_⟩
  rw [huntouched 1 (by decide)]
  rfl

/-!
## Claim C6
-/

/-- C6: at the end of every capture call, completion is deferred
(`setTimeout(cb)`) if and only if `throttle` is truthy (nonzero) and
`samplesSinceYield / sampleRate > throttle / 1000` under JavaScript number
semantics (division by a zero `sampleRate` yields an infinity, a `NaN`
counter compares false), where `samplesSinceYield` already includes the new
samples; on the deferred path the counter is first replaced by itself JS-modulo
`floor(sampleRate / throttle)` (`NaN` when the floor is zero); on the
synchronous path (`cb()` inside the same call) the counter keeps its
incremented value. -/
theorem c6_throttle_deferral {Chunk : Type}
    (getChannelData : Chunk → ℕ → Format → List ℚ)
    (convertToFloat : ℚ → Format → ℚ)
    (forwardTransform : List ℚ → List ℚ → List ℚ × List ℚ)
    (a : Analyser) (chunk : Chunk)
    (cd : List ℚ) (hcd : cd = decodeChunk getChannelData convertToFloat a chunk) :
    ((_capture getChannelData convertToFloat forwardTransform a chunk).deferred = true
      ↔ a.throttle ≠ 0 ∧
        jsGt (jsDivVQ (jsAddNat a._timeoutCount cd.length) a.sampleRate)
          (jsDivQQ a.throttle 1000) = true) ∧
    ((_capture getChannelData convertToFloat forwardTransform a chunk).deferred = true →
      (_capture getChannelData convertToFloat forwardTransform a chunk).state._timeoutCount
        = jsModV (jsAddNat a._timeoutCount cd.length)
            (jsFloorV (jsDivQQ a.sampleRate a.throttle))) ∧
    ((_capture getChannelData convertToFloat forwardTransform a chunk).deferred = false →
      (_capture getChannelData convertToFloat forwardTransform a chunk).state._timeoutCount
        = jsAddNat a._timeoutCount cd.length) := by
  subst hcd
  refine ⟨?_, ?_, ?_⟩
  · show (decide (a.throttle ≠ 0) && jsGt _ _) = true ↔ _
    rw [Bool.and_eq_true, decide_eq_true_iff]
  · intro h
    show (if (_capture getChannelData convertToFloat forwardTransform a chunk).deferred
        = true then _ else _) = _
    rw [if_pos h]
  · intro h
    show (if (_capture getChannelData convertToFloat forwardTransform a chunk).deferred
        = true then _ else _) = _
    rw [if_neg (by simp [h])]

/-- C6 witness: `throttle = 2` ms, `sampleRate = 8`, one decoded sample:
`1/8 > 2/1000` triggers the deferred path and the counter becomes
`1 % floor(8/2) = 1 % 4 = 1`. -/
theorem c6_throttle_deferral_witness :
    (_capture qGetChannelData qConvertToFloat idTransform
        (mkAnalyser { throttle := some 2, sampleRate := some 8, fftSize := some 4 })
        ([1] : QChunk)).deferred = true ∧
    (_capture qGetChannelData qConvertToFloat idTransform
        (mkAnalyser { throttle := some 2, sampleRate := some 8, fftSize := some 4 })
        ([1] : QChunk)).state._timeoutCount = JSVal.num 1 := by
  have h := c6_throttle_deferral qGetChannelData qConvertToFloat idTransform
    (mkAnalyser { throttle := some 2, sampleRate := some 8, fftSize := some 4 })
    ([1] : QChunk) [1] rfl
  have hd : (_capture qGetChannelData qConvertToFloat idTransform
      (mkAnalyser { throttle := some 2, sampleRate := some 8, fftSize := some 4 })
      ([1] : QChunk)).deferred = true := by
    refine h.1.mpr ⟨?_, ?_⟩
    · norm_num [mkAnalyser]
    · norm_num [mkAnalyser, jsAddNat, jsDivVQ, jsDivQQ, jsGt]
  refine ⟨hd, ?_⟩
  rw [h.2.1 hd]
  norm_num [mkAnalyser, jsAddNat, jsDivQQ, jsFloorV, jsModV, jsTrunc]

/-!
## Claim C10
-/

/-- C10: the transform path forwards downstream a chunk byte-for-byte
identical to the input (the capture step, being a pure state update, cannot
mutate it), and the no-downstream-consumer write path emits the unmodified
input chunk with its data event while still performing the capture. -/
theorem c10_passthrough_fidelity {Chunk : Type}
    (getChannelData : Chunk → ℕ → Format → List ℚ)
    (convertToFloat : ℚ → Format → ℚ)
    (forwardTransform : List ℚ → List ℚ → List ℚ × List ℚ)
    (a : Analyser) (chunk : Chunk) :
    (_transform getChannelData convertToFloat forwardTransform a chunk).2 = [chunk] ∧
    (_transform getChannelData convertToFloat forwardTransform a chunk).1
      = _capture getChannelData convertToFloat forwardTransform a chunk ∧
    (a.pipesCount = 0 →
      (_write getChannelData convertToFloat forwardTransform a chunk).emitted = [chunk] ∧
      (_write getChannelData convertToFloat forwardTransform a chunk).state
        = (_capture getChannelData convertToFloat forwardTransform a chunk).state) := by
  refine ⟨rfl, rfl, fun h => ?_⟩
  rw [_write, if_pos (by simp [pipesCountFalsy, h])]
  exact ⟨rfl, rfl⟩

/-- C10 witness: a concrete chunk is forwarded and emitted unchanged. -/
theorem c10_passthrough_fidelity_witness :
    (_transform qGetChannelData qConvertToFloat idTransform
        (mkAnalyser { fftSize := some 4 }) ([1, 2] : QChunk)).2 = [[1, 2]] ∧
    (_write qGetChannelData qConvertToFloat idTransform
        (mkAnalyser { fftSize := some 4 }) ([1, 2] : QChunk)).emitted = [[1, 2]] := by
  have h := c10_passthrough_fidelity qGetChannelData qConvertToFloat idTransform
    (mkAnalyser { fftSize := some 4 }) ([1, 2] : QChunk)
  exact ⟨h.1, (h.2.2 rfl).1⟩

/-!
## Claim C7
-/

theorem captureMany_empty_decodes {Chunk : Type}
    (getChannelData : Chunk → ℕ → Format → List ℚ)
    (convertToFloat : ℚ → Format → ℚ)
    (forwardTransform : List ℚ → List ℚ → List ℚ × List ℚ)
    (cs : List Chunk) (a : Analyser)
    (hn : 1 ≤ a.fftSize) (hfc : a._fftCount = 0)
    (hlen : a._data.length ≤ a.bufferSize)
    (hempty : ∀ c ∈ cs, decodeChunk getChannelData convertToFloat a c = []) :
    ((captureMany getChannelData convertToFloat forwardTransform a cs).1)._data = a._data ∧
    ((captureMany getChannelData convertToFloat forwardTransform a cs).1)._fdata = a._fdata ∧
    (captureMany getChannelData convertToFloat forwardTransform a cs).2 = 0 := by
  induction cs generalizing a with
  | nil => exact ⟨rfl, rfl, rfl⟩
  | cons c cs ih =>
    have hd : decodeChunk getChannelData convertToFloat a c = [] :=
      hempty c (List.mem_cons_self c cs)
    have hnot : ¬ (a.fftSize ≤ a._fftCount
        + (decodeChunk getChannelData convertToFloat a c).length) := by
      rw [hd, hfc]
      simp only [List.length_nil, Nat.add_zero]
      omega
    have h1 : (_capture getChannelData convertToFloat forwardTransform a c).state._data
        = a._data := by
      show jsSliceLast (a._data ++ decodeChunk getChannelData convertToFloat a c)
          a.bufferSize = a._data
      rw [hd, List.append_nil, jsSliceLast_of_le _ _ hlen]
    have h2 : (_capture getChannelData convertToFloat forwardTransform a c).state._fdata
        = a._fdata := by
      show (if a.fftSize ≤ a._fftCount
          + (decodeChunk getChannelData convertToFloat a c).length then _ else a._fdata)
        = a._fdata
      rw [if_neg hnot]
    have h3 : (_capture getChannelData convertToFloat forwardTransform a c).state._fftCount
        = 0 := by
      show (if a.fftSize ≤ a._fftCount
          + (decodeChunk getChannelData convertToFloat a c).length then 0
          else a._fftCount + (decodeChunk getChannelData convertToFloat a c).length) = 0
      rw [if_neg hnot, hd, hfc]
      rfl
    have h4 : (_capture getChannelData convertToFloat forwardTransform a c).didTransform
        = false := by
      show decide (a.fftSize ≤ a._fftCount
          + (decodeChunk getChannelData convertToFloat a c).length) = false
      exact decide_eq_false hnot
    have hdec : decodeChunk getChannelData convertToFloat
        (_capture getChannelData convertToFloat forwardTransform a c).state
        = decodeChunk getChannelData convertToFloat a := rfl
    obtain ⟨e1, e2, e3⟩ := ih (_capture getChannelData convertToFloat forwardTransform a c).state
      hn h3 (by rw [h1]; exact hlen)
      (fun c' hc' => by rw [hdec]; exact hempty c' (List.mem_cons_of_mem c hc'))
    simp only [captureMany]
    refine ⟨e1.trans h1, e2.trans h2, ?_⟩
    rw [h4, e3]
    rfl

theorem c7_run {Chunk : Type}
    (getChannelData : Chunk → ℕ → Format → List ℚ)
    (convertToFloat : ℚ → Format → ℚ)
    (forwardTransform : List ℚ → List ℚ → List ℚ × List ℚ)
    (cs : List Chunk) (a : Analyser)
    (hfd : a._fdata = List.replicate a.fftSize 0)
    (hfc : a._fftCount = a._data.length)
    (hn : 1 ≤ a.fftSize) (hb : a.fftSize ≤ a.bufferSize)
    (hlt : a._data.length < a.fftSize)
    (htot : a._data.length
        + ((cs.map (decodeChunk getChannelData convertToFloat a)).flatten).length
      = a.fftSize) :
    (captureMany getChannelData convertToFloat forwardTransform a cs).2 = 1 ∧
    ((captureMany getChannelData convertToFloat forwardTransform a cs).1)._fdata.length
      = a.fftSize ∧
    ∀ i, i < a.fftSize →
      ((captureMany getChannelData convertToFloat forwardTransform a cs).1)._fdata.getD i 0
        = (1 - a.smoothingTimeConstant)
          * ((forwardTransform
              (a._data ++ (cs.map (decodeChunk getChannelData convertToFloat a)).flatten)
              (List.replicate a.fftSize 0)).1).getD i 0 / (a.fftSize : ℚ) := by
  induction cs generalizing a with
  | nil =>
    simp only [List.map_nil, List.flatten_nil, List.length_nil] at htot
    omega
  | cons c cs ih =>
    simp only [List.map_cons, List.flatten_cons, List.length_append] at htot
    by_cases hcase : a.fftSize ≤ a._fftCount
        + (decodeChunk getChannelData convertToFloat a c).length
    · -- this chunk triggers the one transform
      have hdlen : a._data.length
          + (decodeChunk getChannelData convertToFloat a c).length = a.fftSize := by
        omega
      have hrest : ((cs.map (decodeChunk getChannelData convertToFloat a)).flatten).length
          = 0 := by omega
      have hrestnil : (cs.map (decodeChunk getChannelData convertToFloat a)).flatten = [] :=
        List.eq_nil_of_length_eq_zero hrest
      have hempty : ∀ c' ∈ cs, decodeChunk getChannelData convertToFloat a c' = [] := by
        rw [List.flatten_eq_nil_iff] at hrestnil
        intro c' hc'
        exact hrestnil _ (List.mem_map_of_mem _ hc')
      have hfull : (a._data ++ decodeChunk getChannelData convertToFloat a c).length
          = a.fftSize := by
        rw [List.length_append]
        exact hdlen
      have h1 : (_capture getChannelData convertToFloat forwardTransform a c).state._data
          = a._data ++ decodeChunk getChannelData convertToFloat a c := by
        show jsSliceLast (a._data ++ decodeChunk getChannelData convertToFloat a c)
            a.bufferSize = _
        exact jsSliceLast_of_le _ _ (by rw [hfull]; exact hb)
      have hwin : jsSliceLast
          (jsSliceLast (a._data ++ decodeChunk getChannelData convertToFloat a c)
            a.bufferSize) a.fftSize
          = a._data ++ decodeChunk getChannelData convertToFloat a c := by
        rw [show jsSliceLast (a._data ++ decodeChunk getChannelData convertToFloat a c)
              a.bufferSize
            = a._data ++ decodeChunk getChannelData convertToFloat a c
          from jsSliceLast_of_le _ _ (by rw [hfull]; exact hb)]
        exact jsSliceLast_of_le _ _ (le_of_eq hfull)
      have h2 : (_capture getChannelData convertToFloat forwardTransform a c).state._fdata
          = a._fdata.mapIdx (fun i v => if i < a.fftSize then
              a.smoothingTimeConstant * v + (1 - a.smoothingTimeConstant)
                * ((forwardTransform
                    (a._data ++ decodeChunk getChannelData convertToFloat a c)
                    (List.replicate a.fftSize 0)).1).getD i 0 / (a.fftSize : ℚ)
            else v) := by
        show (if a.fftSize ≤ a._fftCount
            + (decodeChunk getChannelData convertToFloat a c).length then _ else _) = _
        rw [if_pos hcase, hwin]
      have h3 : (_capture getChannelData convertToFloat forwardTransform a c).state._fftCount
          = 0 := by
        show (if a.fftSize ≤ a._fftCount
            + (decodeChunk getChannelData convertToFloat a c).length then 0 else _) = 0
        rw [if_pos hcase]
      have h4 : (_capture getChannelData convertToFloat forwardTransform a c).didTransform
          = true := by
        show decide (a.fftSize ≤ a._fftCount
            + (decodeChunk getChannelData convertToFloat a c).length) = true
        exact decide_eq_true hcase
      have hdec : decodeChunk getChannelData convertToFloat
          (_capture getChannelData convertToFloat forwardTransform a c).state
          = decodeChunk getChannelData convertToFloat a := rfl
      obtain ⟨e1, e2, e3⟩ := captureMany_empty_decodes getChannelData convertToFloat
        forwardTransform cs
        (_capture getChannelData convertToFloat forwardTransform a c).state
        hn h3 (by rw [h1, hfull]; exact hb)
        (fun c' hc' => by rw [hdec]; exact hempty c' hc')
      simp only [captureMany, List.map_cons, List.flatten_cons, hrestnil, List.append_nil]
      refine ⟨?_, ?_, ?_⟩
      · rw [h4, e3]
        rfl
      · rw [e2.trans h2, List.length_mapIdx, hfd, List.length_replicate]
      · intro i hi
        rw [e2.trans h2, hfd,
          getD_mapIdx _ _ i (by rw [List.length_replicate]; exact hi), if_pos hi]
        simp
    · -- no trigger yet: the counter keeps accumulating
      have h1 : (_capture getChannelData convertToFloat forwardTransform a c).state._data
          = a._data ++ decodeChunk getChannelData convertToFloat a c := by
        show jsSliceLast (a._data ++ decodeChunk getChannelData convertToFloat a c)
            a.bufferSize = _
        refine jsSliceLast_of_le _ _ ?_
        rw [List.length_append]
        omega
      have h2 : (_capture getChannelData convertToFloat forwardTransform a c).state._fdata
          = a._fdata := by
        show (if a.fftSize ≤ a._fftCount
            + (decodeChunk getChannelData convertToFloat a c).length then _ else a._fdata)
          = a._fdata
        rw [if_neg hcase]
      have h3 : (_capture getChannelData convertToFloat forwardTransform a c).state._fftCount
          = a._fftCount + (decodeChunk getChannelData convertToFloat a c).length := by
        show (if a.fftSize ≤ a._fftCount
            + (decodeChunk getChannelData convertToFloat a c).length then 0 else _) = _
        rw [if_neg hcase]
      have h4 : (_capture getChannelData convertToFloat forwardTransform a c).didTransform
          = false := by
        show decide (a.fftSize ≤ a._fftCount
            + (decodeChunk getChannelData convertToFloat a c).length) = false
        exact decide_eq_false hcase
      have hdec : decodeChunk getChannelData convertToFloat
          (_capture getChannelData convertToFloat forwardTransform a c).state
          = decodeChunk getChannelData convertToFloat a := rfl
      have hfsz : (_capture getChannelData convertToFloat forwardTransform a c).state.fftSize
          = a.fftSize := rfl
      have hbsz : (_capture getChannelData convertToFloat forwardTransform a c).state.bufferSize
          = a.bufferSize := rfl
      obtain ⟨e1, e2, e3⟩ := ih
        (_capture getChannelData convertToFloat forwardTransform a c).state
        (by rw [h2, hfd, hfsz])
        (by rw [h3, h1, hfc, List.length_append])
        hn hb
        (by rw [h1, List.length_append, hfsz]; omega)
        (by rw [h1, hdec, List.length_append, hfsz]; omega)
      simp only [captureMany, List.map_cons, List.flatten_cons]
      refine ⟨?_, e2, ?_⟩
      · rw [h4, e1]
        rfl
      · intro i hi
        rw [e3 i hi, h1, hdec, List.append_assoc]
        rfl

/-- C7: starting from a freshly constructed analyser (zero spectrum, zero
counters), once the captures' decoded samples total exactly `fftSize`,
exactly one transform trigger has occurred and every spectrum bin `i` equals
`(1 - k) * Re(transform_output[i]) / fftSize`; in particular, with
`fftSize = 4`, `smoothingTimeConstant = 0`, `channel = 0` and one mono float
capture of `[1, 0, -1, 0]` under the standard size-4 DFT, the resulting
spectrum is `[0, 1/2, 0, 1/2]`. -/
theorem c7_first_window_spectrum {Chunk : Type}
    (getChannelData : Chunk → ℕ → Format → List ℚ)
    (convertToFloat : ℚ → Format → ℚ)
    (forwardTransform : List ℚ → List ℚ → List ℚ × List ℚ)
    (cs : List Chunk) (a : Analyser)
    (hdata : a._data = []) (hfd : a._fdata = List.replicate a.fftSize 0)
    (hfc : a._fftCount = 0)
    (hn : 1 ≤ a.fftSize) (hb : a.fftSize ≤ a.bufferSize)
    (htot : ((cs.map (decodeChunk getChannelData convertToFloat a)).flatten).length
      = a.fftSize) :
    ((captureMany getChannelData convertToFloat forwardTransform a cs).2 = 1 ∧
     ∀ i, i < a.fftSize →
       ((captureMany getChannelData convertToFloat forwardTransform a cs).1)._fdata.getD i 0
         = (1 - a.smoothingTimeConstant)
           * ((forwardTransform
               ((cs.map (decodeChunk getChannelData convertToFloat a)).flatten)
               (List.replicate a.fftSize 0)).1).getD i 0 / (a.fftSize : ℚ)) ∧
    ((captureMany qGetChannelData qConvertToFloat dft4
        (mkAnalyser { fftSize := some 4, smoothingTimeConstant := some 0, channel := some 0 })
        [[1, 0, -1, 0]]).1)._fdata = [0, 1/2, 0, 1/2] ∧
    (captureMany qGetChannelData qConvertToFloat dft4
        (mkAnalyser { fftSize := some 4, smoothingTimeConstant := some 0, channel := some 0 })
        [[1, 0, -1, 0]]).2 = 1 := by
  obtain ⟨g1, g2, g3⟩ := c7_run getChannelData convertToFloat forwardTransform cs a
    hfd (by rw [hfc, hdata]; rfl) hn hb (by rw [hdata]; exact hn)
    (by rw [hdata]; simpa using htot)
  have hgen : ∀ i, i < a.fftSize →
      ((captureMany getChannelData convertToFloat forwardTransform a cs).1)._fdata.getD i 0
        = (1 - a.smoothingTimeConstant)
          * ((forwardTransform
              ((cs.map (decodeChunk getChannelData convertToFloat a)).flatten)
              (List.replicate a.fftSize 0)).1).getD i 0 / (a.fftSize : ℚ) := by
    intro i hi
    rw [g3 i hi, hdata, List.nil_append]
  -- the concrete scenario, via the same run lemma and the exact size-4 DFT
  obtain ⟨k1, k2, k3⟩ := c7_run qGetChannelData qConvertToFloat dft4 [[1, 0, -1, 0]]
    (mkAnalyser { fftSize := some 4, smoothingTimeConstant := some 0, channel := some 0 })
    rfl rfl (by decide) (by decide) (by decide) rfl
  have hdft : dft4 [1, 0, -1, 0] (List.replicate 4 0) = ([0, 2, 0, 2], [0, 0, 0, 0]) := by
    have hr : List.range 4 = [0, 1, 2, 3] := rfl
    simp only [dft4, List.length_cons, List.length_nil, List.replicate]
    norm_num [hr, pow4, gMul]
  have hfdata : ((captureMany qGetChannelData qConvertToFloat dft4
      (mkAnalyser { fftSize := some 4, smoothingTimeConstant := some 0, channel := some 0 })
      [[1, 0, -1, 0]]).1)._fdata = [0, 1/2, 0, 1/2] := by
    apply List.ext_getElem
    · rw [k2]
      rfl
    · intro i h1 h2
      have hi4 : i < 4 := by simpa using h2
      have hbin := k3 i hi4
      have hout : ((dft4
          ((mkAnalyser { fftSize := some 4, smoothingTimeConstant := some 0, channel := some 0 })._data
            ++ (([[1, 0, -1, 0]] : List QChunk).map
                (decodeChunk qGetChannelData qConvertToFloat
                  (mkAnalyser { fftSize := some 4, smoothingTimeConstant := some 0, channel := some 0 }))).flatten)
          (List.replicate
            (mkAnalyser { fftSize := some 4, smoothingTimeConstant := some 0, channel := some 0 }).fftSize
            0)).1) = [0, 2, 0, 2] := by
        show (dft4 [1, 0, -1, 0] (List.replicate 4 0)).1 = [0, 2, 0, 2]
        rw [hdft]
      rw [hout] at hbin
      rw [← List.getD_eq_getElem _ 0 h1, hbin]
      interval_cases i <;> norm_num [mkAnalyser]
  exact ⟨⟨g1, hgen⟩, hfdata, k1⟩

/-- C7 witness: `fftSize = 2`, `k = 0`, identity transform, one capture of
`[3, 5]`: exactly one trigger, and bin 0 becomes `(1 - 0) * 3 / 2 = 3/2`. -/
theorem c7_first_window_spectrum_witness :
    (captureMany qGetChannelData qConvertToFloat idTransform
        (mkAnalyser { fftSize := some 2, smoothingTimeConstant := some 0 }) [[3, 5]]).2 = 1 ∧
    ((captureMany qGetChannelData qConvertToFloat idTransform
        (mkAnalyser { fftSize := some 2, smoothingTimeConstant := some 0 })
        [[3, 5]]).1)._fdata.getD 0 0 = 3 / 2 := by
  have h := c7_first_window_spectrum qGetChannelData qConvertToFloat idTransform
    [[3, 5]] (mkAnalyser { fftSize := some 2, smoothingTimeConstant := some 0 })
    rfl rfl rfl (by decide) (by decide) rfl
  refine ⟨h.1.1, ?_⟩
  rw [h.1.2 0 (by decide)]
  norm_num [mkAnalyser, idTransform, decodeChunk, qGetChannelData, qConvertToFloat]

end AudioAnalyser
